import Mathlib

/-!
Verification of the pinned-tab protection extension

A shallow embedding of the extension's background script: the URL/domain
comparison used to decide navigation diversion, the pinned-tab registry with
its event handlers and persistence, and the navigation interceptor with its
per-tab lock discipline, together with theorems settling the specification's
claims about them.

Conventions of the embedding:
* JS strings are Lean `String`s; character-level work goes through `String.data`
  with structurally recursive helpers so every definition evaluates by kernel
  reduction.
* JS `Map`s (insertion-ordered, as iterated by `Array.from(map.entries())`) are
  association lists `List (Nat × V)` with JS semantics: `set` updates in place
  or appends, `delete` removes, iteration order is list order.
* The host browser (tab queries, `new URL`, storage) is an external
  collaborator; it is modelled by explicit data (`HostTab` lists, `parseURL`,
  a `Store` record) and, for the asynchronous interceptor, by per-step
  environment inputs that may report an exception as `none`.
-/

namespace PinnedTabs

/-! ## Character-list helpers (JS `String.prototype.split` / `Array.prototype.join`) -/
/-- Splitting `l` at every occurrence of `c`, like JS `str.split(c)`: the result is never empty, and separators are not kept. -/
def splitOnChar (c : Char) : List Char → List (List Char)
  | [] => [[]]
  | x :: xs =>
    match splitOnChar c xs with
    | [] => [[]]
    | g :: gs => if x = c then [] :: g :: gs else (x :: g) :: gs

/-- Joining the groups `gs` with separator `c`, like JS `arr.join(c)`. -/
def joinSep (c : Char) : List (List Char) → List Char
  | [] => []
  | [g] => g
  | g :: gs => g ++ c :: joinSep c gs

/-! ## Model of the host's URL parser (`new URL`)

The source calls the WHATWG `new URL(...)` constructor and reads only
`.protocol` and `.hostname`; parse failures throw. `parseURL` models exactly
that surface: scheme recognition (an ASCII letter followed by
letters/digits/`+`/`-`/`.`, then a colon), authority extraction for
special (`http`-family) schemes and for non-special schemes written with
`//`, lowercasing of scheme and special-scheme hosts, `none` on failure
(no scheme, or an empty host for a special scheme). Host validation beyond
delimiter splitting (percent-decoding, IDNA) is outside the fragment this
program exercises and is not modelled. -/
/-- The host- and scheme-relevant fields of a parsed URL. `protocol` carries
the trailing colon, as the JS `URL.protocol` getter does. -/
structure URLRec where
  protocol : String
  hostname : String
  deriving DecidableEq, Repr

/-- Characters allowed in a URL scheme after the leading letter. -/
def isSchemeChar (c : Char) : Bool :=
  c.isAlphanum || c = '+' || c = '-' || c = '.'

/-- The WHATWG special schemes (those that always parse an authority). -/
def specialSchemes : List String := ["http", "https", "ws", "wss", "ftp", "file"]

/-- Characters that terminate the host portion of an authority. -/
def isHostDelim (c : Char) : Bool :=
  c = '/' || c = '?' || c = '#' || c = ':'

/-- Model of the host's `new URL(s)`, restricted to the fields the extension
reads; `none` models the constructor throwing. -/
def parseURL (s : String) : Option URLRec :=
  let cs := s.data
  let schemeChars := cs.takeWhile isSchemeChar
  let rest := cs.drop schemeChars.length
  match schemeChars, rest with
  | [], _ => none
  | c :: _, ':' :: afterColon =>
    if c.isAlpha then
      let scheme := String.mk (schemeChars.map Char.toLower)
      if specialSchemes.contains scheme then
        let afterSlashes := afterColon.dropWhile (fun d => d = '/')
        let host := afterSlashes.takeWhile (fun d => !isHostDelim d)
        if host.isEmpty && scheme ≠ "file" then none
        else some ⟨scheme ++ ":", String.mk (host.map Char.toLower)⟩
      else
        match afterColon with
        | '/' :: '/' :: r2 =>
          let host := r2.takeWhile (fun d => !isHostDelim d)
          some ⟨scheme ++ ":", String.mk host⟩
        | _ => some ⟨scheme ++ ":", ""⟩
    else none
  | _ :: _, _ => none

/-! ## Domain comparison and the diversion decision (from the source) -/
/-- Embedding of the source's `getBaseDomain` closure:
`parts.length > 2 ? parts.slice(-2).join('.') : hostname`. -/
def getBaseDomain (hostname : String) : String :=
  let parts := splitOnChar '.' hostname.data
  if parts.length > 2 then String.mk (joinSep '.' (parts.drop (parts.length - 2)))
  else hostname

/-- Embedding of `isDifferentDomain(url1, url2)`: privileged schemes
short-circuit to `true`, otherwise base domains are compared; a parse failure
is caught and defaulted to `true`. -/
def isDifferentDomain (url1 url2 : String) : Bool :=
  match parseURL url1, parseURL url2 with
  | some domain1, some domain2 =>
    if domain1.protocol = "about:" || domain2.protocol = "about:" ||
        domain1.protocol = "chrome:" || domain2.protocol = "chrome:" ||
        domain1.protocol = "moz-extension:" || domain2.protocol = "moz-extension:" then
      true
    else
      getBaseDomain domain1.hostname ≠ getBaseDomain domain2.hostname
  | _, _ => true

/-- Embedding of `shouldOpenInNewTab(currentUrl, newUrl)`. The module-level
`linkBehavior` setting is passed explicitly. -/
def shouldOpenInNewTab (linkBehavior currentUrl newUrl : String) : Bool :=
  if currentUrl = newUrl then false
  else if linkBehavior = "all-links" then true
  else isDifferentDomain currentUrl newUrl

/-- The specification's registrable-domain heuristic, stated in its own words:
the last two dot-separated labels of a hostname (all of them when there are
fewer than two). Kept separate from `getBaseDomain` so the code can be checked
against the spec's phrasing. -/
def specRegistrableDomain (hostname : String) : String :=
  let parts := splitOnChar '.' hostname.data
  String.mk (joinSep '.' (parts.drop (parts.length - 2)))

/-! ## JS `Map` model

The script keys its maps by tab id (the lock map's key `nav_${tabId}` is in
bijection with the tab id, so it is modelled by the id itself). JS `Map`
iteration order is insertion order, which `Array.from(map.entries())` exposes
to persistence, so the model is an insertion-ordered association list. -/
/-- An insertion-ordered association list with JS `Map` semantics. -/
abbrev JSMap (V : Type) := List (Nat × V)

/-- The JS `map.get(k)`, as an `Option`. -/
def jsGet {V : Type} (m : JSMap V) (k : Nat) : Option V :=
  (m.find? (fun p => p.1 = k)).map (fun p => p.2)

/-- The JS `map.has(k)`. -/
def jsHas {V : Type} (m : JSMap V) (k : Nat) : Bool :=
  m.any (fun p => p.1 = k)

/-- The JS `map.set(k, v)`: update in place when the key is present, append
otherwise. -/
def jsSet {V : Type} (m : JSMap V) (k : Nat) (v : V) : JSMap V :=
  if jsHas m k then m.map (fun p => if p.1 = k then (k, v) else p)
  else m ++ [(k, v)]

/-- The JS `map.delete(k)`. -/
def jsDelete {V : Type} (m : JSMap V) (k : Nat) : JSMap V :=
  m.filter (fun p => p.1 ≠ k)

/-! ## Extension state and the registry handlers (from the source) -/
/-- A recorded navigation attempt: `{ timestamp, originalUrl }`. -/
structure Attempt where
  timestamp : Int
  originalUrl : String
  deriving DecidableEq, Repr

/-- The extension's slice of `browser.storage.local`. The debug log lives
under a separate key never read by the logic modelled here and is omitted. -/
structure Store where
  debugMode : Option Bool
  linkBehavior : Option String
  pinnedUrls : Option (List (Nat × String))
  deriving DecidableEq, Repr

/-- The background script's module-level state: the two cached settings, the
three maps, and the persistent store it writes through to. -/
structure ExtState where
  debugMode : Bool
  linkBehavior : String
  pinnedTabs : JSMap String
  navigationLocks : JSMap Bool
  lastNavigationAttempts : JSMap Attempt
  store : Store
  deriving DecidableEq, Repr

/-- A tab record as the host reports it: `{ id, pinned, url, index }`. -/
structure HostTab where
  id : Nat
  pinned : Bool
  url : String
  index : Int
  deriving DecidableEq, Repr

/-- The host's tab list, in the order `browser.tabs.query` enumerates it. -/
abbrev Host := List HostTab

/-- Host well-formedness: distinct tab ids, and every tab has a non-empty URL
(Firefox reports at least `about:blank`). -/
def hostWF (host : Host) : Prop :=
  (host.map (fun t => t.id)).Nodup ∧ ∀ t ∈ host, t.url ≠ ""

/-- Embedding of `savePinnedTabs`: writes `Array.from(pinnedTabs.entries())`
to the `pinnedUrls` key. -/
def savePinnedTabs (s : ExtState) : ExtState :=
  { s with store := { s.store with pinnedUrls := some s.pinnedTabs } }

/-- Embedding of `initializeExtension`: reload settings from storage, query
the host for pinned tabs, rebuild the registry from scratch skipping blank
URLs, and persist. Storage and host queries are modelled as reliable. -/
def initializeExtension (host : Host) (s : ExtState) : ExtState :=
  let debugMode := s.store.debugMode.getD false
  let linkBehavior :=
    match s.store.linkBehavior with
    | none => "different-domains"
    | some v => if v = "" then "different-domains" else v
  let pinnedTabsList := host.filter (fun t => t.pinned)
  let reg := pinnedTabsList.foldl
    (fun m tab => if tab.url ≠ "" ∧ tab.url ≠ "about:blank" then jsSet m tab.id tab.url else m)
    []
  savePinnedTabs { s with debugMode, linkBehavior, pinnedTabs := reg }

/-- The `changeInfo` argument of a `tabs.onUpdated` event, restricted to the
two fields the handler reads. -/
structure ChangeInfo where
  pinned : Option Bool
  url : Option String
  deriving DecidableEq, Repr

/-- Embedding of the `browser.tabs.onUpdated` listener. JS truthiness:
`changeInfo.pinned !== undefined` is `Option.isSome`, `changeInfo.url` truthy
means `some u` with `u ≠ ""`. -/
def handleTabUpdated (tabId : Nat) (changeInfo : ChangeInfo) (tab : HostTab)
    (s : ExtState) : ExtState :=
  let s1 :=
    match changeInfo.pinned with
    | some p =>
      let reg :=
        if p = true ∧ tab.url ≠ "about:blank" then jsSet s.pinnedTabs tabId tab.url
        else jsDelete s.pinnedTabs tabId
      savePinnedTabs { s with pinnedTabs := reg }
    | none => s
  match changeInfo.url with
  | some u =>
    if u ≠ "" ∧ tab.pinned = true ∧ tab.url ≠ "about:blank" then
      savePinnedTabs { s1 with pinnedTabs := jsSet s1.pinnedTabs tabId tab.url }
    else s1
  | none => s1

/-- Embedding of the `browser.tabs.onRemoved` listener. -/
def handleTabRemoved (tabId : Nat) (s : ExtState) : ExtState :=
  if jsHas s.pinnedTabs tabId then
    savePinnedTabs
      { s with
        pinnedTabs := jsDelete s.pinnedTabs tabId
        lastNavigationAttempts := jsDelete s.lastNavigationAttempts tabId
        navigationLocks := jsDelete s.navigationLocks tabId }
  else s

/-! ## Host lifecycle events driving the registry handlers -/
/-- The host-side tab lifecycle events that reach the registry handlers. -/
inductive HostEvent
  | pinChange (tabId : Nat) (pinned : Bool)
  | urlChange (tabId : Nat) (url : String)
  | close (tabId : Nat)
  deriving DecidableEq, Repr

/-- The per-tab record transformation a pin-state change reports. -/
def pinEventMap (tabId : Nat) (p : Bool) (t : HostTab) : HostTab :=
  if t.id = tabId then { t with pinned := p } else t

/-- The per-tab record transformation a URL change reports. -/
def urlEventMap (tabId : Nat) (u : String) (t : HostTab) : HostTab :=
  if t.id = tabId then { t with url := u } else t

/-- The host state transition an event reports. -/
def applyHost : HostEvent → Host → Host
  | .pinChange tabId p, host => host.map (pinEventMap tabId p)
  | .urlChange tabId u, host => host.map (urlEventMap tabId u)
  | .close tabId, host => host.filter (fun t => t.id ≠ tabId)

/-- One system step: the host state changes and the corresponding handler runs
to completion with the host's current tab record, as the events deliver it. -/
def systemStep (e : HostEvent) (host : Host) (s : ExtState) : Host × ExtState :=
  let host' := applyHost e host
  match e with
  | .pinChange tabId p =>
    match host'.find? (fun t => t.id = tabId) with
    | some tab => (host', handleTabUpdated tabId ⟨some p, none⟩ tab s)
    | none => (host', s)
  | .urlChange tabId u =>
    match host'.find? (fun t => t.id = tabId) with
    | some tab => (host', handleTabUpdated tabId ⟨none, some u⟩ tab s)
    | none => (host', s)
  | .close tabId => (host', handleTabRemoved tabId s)

/-- The host reports tab `id` as pinned with a non-blank URL. -/
def hostPinnedNonBlank (host : Host) (id : Nat) : Prop :=
  ∃ t ∈ host, t.id = id ∧ t.pinned = true ∧ t.url ≠ "" ∧ t.url ≠ "about:blank"

instance (host : Host) (id : Nat) : Decidable (hostPinnedNonBlank host id) := by
  unfold hostPinnedNonBlank
  infer_instance

/-- The registry/host consistency invariant of the specification. -/
def registryInv (host : Host) (s : ExtState) : Prop :=
  ∀ id, jsHas s.pinnedTabs id = true ↔ hostPinnedNonBlank host id

/-- Events whose payload URL is non-blank (the well-formedness the amended
registry invariant needs from URL-change events). -/
def eventNonBlankURL : HostEvent → Prop
  | .urlChange _ u => u ≠ "" ∧ u ≠ "about:blank"
  | _ => True

/-! ## The navigation interceptor as a small-step machine

The `webNavigation.onBeforeNavigate` listener is asynchronous: it suspends at
every `await` (`tabs.get`, `tabs.create`, the two `setTimeout` delays, the two
`tabs.update` calls), and other events may interleave at those points. It is
embedded as a program-counter machine whose atomic segments are exactly the
code between consecutive `await`s. Each resumption consumes a `NavEnv`
describing what the host returned (`none` models the awaited promise
rejecting, which the `catch` swallows); host calls the segment issues are
emitted as `HostAction`s. The `finally` block's `navigationLocks.delete` is
part of whichever segment finishes the invocation. -/
/-- The `details` object of a pre-navigation event. -/
structure NavDetails where
  tabId : Nat
  frameId : Nat
  url : String
  deriving DecidableEq, Repr

/-- Program counter of one interceptor invocation: `entry` is the synchronous
prefix, the `at*` states are suspensions at the successive `await`s (each
carrying the locals still live there), `done` means the handler returned. -/
inductive NavPC
  | entry
  | atGet
  | atCreate (currentUrl : String)
  | atSettle (currentUrl : String)
  | atUpdate1 (currentUrl : String)
  | atRetrySleep (currentUrl : String)
  | atUpdate2 (currentUrl : String)
  | done
  deriving DecidableEq, Repr

/-- One in-flight interceptor invocation. -/
structure NavInv where
  details : NavDetails
  pc : NavPC
  deriving DecidableEq, Repr

/-- Host responses consumed at one resumption: the fetched tab, `Date.now()`,
and the results of `tabs.create` / `tabs.update` (`none` = the promise
rejected and control jumps to `catch`). -/
structure NavEnv where
  tabResult : Option HostTab
  now : Int
  createOk : Bool
  updateResult : Option HostTab
  deriving DecidableEq, Repr

/-- Host calls the interceptor issues. -/
inductive HostAction
  | create (url : String) (index : Int)
  | update (tabId : Nat) (url : String)
  deriving DecidableEq, Repr

/-- Release the per-tab navigation lock (the `finally` block). -/
def releaseLock (tabId : Nat) (s : ExtState) : ExtState :=
  { s with navigationLocks := jsDelete s.navigationLocks tabId }

/-- One atomic segment of the interceptor, translated from the listener body.
Returns the updated module state, the next program counter, and the host calls
issued in this segment. -/
def navStep (s : ExtState) (inv : NavInv) (env : NavEnv) :
    ExtState × NavPC × List HostAction :=
  let d := inv.details
  match inv.pc with
  | .entry =>
    if (jsGet s.navigationLocks d.tabId).getD false then (s, .done, [])
    else
      let s1 := { s with navigationLocks := jsSet s.navigationLocks d.tabId true }
      if d.frameId ≠ 0 ∨ jsHas s1.pinnedTabs d.tabId = false then
        (releaseLock d.tabId s1, .done, [])
      else (s1, .atGet, [])
  | .atGet =>
    match env.tabResult with
    | none => (releaseLock d.tabId s, .done, [])
    | some tab =>
      if tab.pinned = false ∨ tab.url = "" then (releaseLock d.tabId s, .done, [])
      else
        let currentUrl :=
          match jsGet s.pinnedTabs d.tabId with
          | some v => if v = "" then tab.url else v
          | none => tab.url
        let newUrl := d.url
        let now := env.now
        let lastAttempt := jsGet s.lastNavigationAttempts d.tabId
        let isEcho : Bool :=
          match lastAttempt with
          | some la => decide (now - la.timestamp < 1000) && decide (newUrl = la.originalUrl)
          | none => false
        if isEcho then (releaseLock d.tabId s, .done, [])
        else if shouldOpenInNewTab s.linkBehavior currentUrl newUrl = false then
          (releaseLock d.tabId s, .done, [])
        else
          let att : Attempt := ⟨now, currentUrl⟩
          let s2 :=
            { s with lastNavigationAttempts := jsSet s.lastNavigationAttempts d.tabId att }
          (s2, .atCreate currentUrl, [.create newUrl (tab.index + 1)])
  | .atCreate currentUrl =>
    if env.createOk then (s, .atSettle currentUrl, [])
    else (releaseLock d.tabId s, .done, [])
  | .atSettle currentUrl =>
    (s, .atUpdate1 currentUrl, [.update d.tabId currentUrl])
  | .atUpdate1 currentUrl =>
    match env.updateResult with
    | none => (releaseLock d.tabId s, .done, [])
    | some updatedTab =>
      if updatedTab.url ≠ currentUrl then (s, .atRetrySleep currentUrl, [])
      else (releaseLock d.tabId s, .done, [])
  | .atRetrySleep currentUrl =>
    (s, .atUpdate2 currentUrl, [.update d.tabId currentUrl])
  | .atUpdate2 _ =>
    (releaseLock d.tabId s, .done, [])
  | .done => (s, .done, [])

/-- Run a single invocation, one environment per step, collecting the issued
host actions. -/
def navRun (s : ExtState) (inv : NavInv) : List NavEnv → ExtState × NavPC × List HostAction
  | [] => (s, inv.pc, [])
  | env :: envs =>
    let r := navStep s inv env
    let rest := navRun r.1 ⟨inv.details, r.2.1⟩ envs
    (rest.1, rest.2.1, r.2.2 ++ rest.2.2)

/-! ## Interleaved invocations and the lock discipline -/
/-- A set of concurrently in-flight interceptor invocations over the shared
module state. -/
structure NavConfig where
  st : ExtState
  invs : List NavInv

/-- Scheduler step: one not-yet-finished invocation runs its next atomic
segment with some host response. -/
def stepAt (c : NavConfig) (i : Nat) (env : NavEnv) : NavConfig :=
  match c.invs[i]? with
  | some inv =>
    let r := navStep c.st inv env
    ⟨r.1, c.invs.set i ⟨inv.details, r.2.1⟩⟩
  | none => c

/-- The interleaving relation: some pending invocation takes a step. -/
def NavStepRel (c c' : NavConfig) : Prop :=
  ∃ i env inv, c.invs[i]? = some inv ∧ inv.pc ≠ .done ∧ c' = stepAt c i env

/-- An invocation is past the lock check and has not yet released the lock. -/
def NavPC.inRegion : NavPC → Bool
  | .entry => false
  | .done => false
  | _ => true

/-- Number of invocations for tab `t` currently holding the region. -/
def regionCount (c : NavConfig) (t : Nat) : Nat :=
  c.invs.countP (fun inv => decide (inv.details.tabId = t) && inv.pc.inRegion)

/-- Lock/region correspondence: every stored lock value is `true`, and the
lock for `t` is held exactly when one invocation for `t` is in the region. -/
def lockInv (c : NavConfig) : Prop :=
  (∀ p ∈ c.st.navigationLocks, p.2 = true) ∧
  ∀ t, regionCount c t = if jsHas c.st.navigationLocks t then 1 else 0

/-- A quiescent starting configuration: no locks held, no invocation started. -/
def navInit (c : NavConfig) : Prop :=
  c.st.navigationLocks = [] ∧ ∀ inv ∈ c.invs, inv.pc = .entry

/-- The region predicate counted by `regionCount`. -/
def regionPred (t : Nat) (inv : NavInv) : Bool :=
  decide (inv.details.tabId = t) && inv.pc.inRegion

theorem splitOnChar_ne_nil (c : Char) (l : List Char) : splitOnChar c l ≠ [] := by
  cases l with
  | nil => simp [splitOnChar]
  | cons x xs =>
    simp only [splitOnChar]
    cases splitOnChar c xs with
    | nil => simp
    | cons g gs =>
      by_cases hx : x = c <;> simp [hx]

theorem joinSep_cons_cons (c : Char) (g g' : List Char) (gs : List (List Char)) :
    joinSep c (g :: g' :: gs) = g ++ c :: joinSep c (g' :: gs) := rfl

/-- Splitting and rejoining with the same separator is the identity. -/
theorem joinSep_splitOnChar (c : Char) (l : List Char) :
    joinSep c (splitOnChar c l) = l := by
  induction l with
  | nil => rfl
  | cons x xs ih =>
    simp only [splitOnChar]
    cases hsplit : splitOnChar c xs with
    | nil => exact absurd hsplit (splitOnChar_ne_nil c xs)
    | cons g gs =>
      rw [hsplit] at ih
      dsimp only
      by_cases hx : x = c
      · rw [if_pos hx, joinSep_cons_cons, ih, hx]
        rfl
      · rw [if_neg hx]
        cases gs with
        | nil =>
          simp only [joinSep] at ih ⊢
          rw [ih]
        | cons g' gs' =>
          rw [joinSep_cons_cons] at ih ⊢
          simp only [List.cons_append]
          rw [ih]

/-- The source's `getBaseDomain` computes exactly the spec's
"last two dot-separated labels" heuristic. -/
theorem getBaseDomain_eq_specRegistrableDomain (h : String) :
    getBaseDomain h = specRegistrableDomain h := by
  unfold getBaseDomain specRegistrableDomain
  by_cases hlen : (splitOnChar '.' h.data).length > 2
  · simp [hlen]
  · have hdrop : (splitOnChar '.' h.data).length - 2 = 0 := by omega
    simp only [if_neg hlen, hdrop, List.drop_zero, joinSep_splitOnChar]

theorem jsGet_nil {V : Type} (k : Nat) : jsGet ([] : JSMap V) k = none := rfl

theorem jsGet_cons {V : Type} (p : Nat × V) (m : JSMap V) (k : Nat) :
    jsGet (p :: m) k = if p.1 = k then some p.2 else jsGet m k := by
  by_cases hp : p.1 = k <;> simp [jsGet, List.find?_cons, hp]

theorem jsHas_nil {V : Type} (k : Nat) : jsHas ([] : JSMap V) k = false := rfl

theorem jsHas_cons {V : Type} (p : Nat × V) (m : JSMap V) (k : Nat) :
    jsHas (p :: m) k = (p.1 = k || jsHas m k) := by
  simp [jsHas]

theorem jsHas_eq_isSome {V : Type} (m : JSMap V) (k : Nat) :
    jsHas m k = (jsGet m k).isSome := by
  induction m with
  | nil => rfl
  | cons p m ih =>
    rw [jsHas_cons, jsGet_cons]
    by_cases hp : p.1 = k <;> simp [hp, ih]

theorem jsDelete_nil {V : Type} (k : Nat) : jsDelete ([] : JSMap V) k = [] := rfl

theorem jsDelete_cons {V : Type} (p : Nat × V) (m : JSMap V) (k : Nat) :
    jsDelete (p :: m) k = if p.1 = k then jsDelete m k else p :: jsDelete m k := by
  by_cases hp : p.1 = k <;> simp [jsDelete, List.filter_cons, hp]

/-- The updated entry of `jsSet`'s in-place branch keeps its key. -/
theorem jsSet_update_key {V : Type} (k : Nat) (v : V) (p : Nat × V) :
    ((if p.1 = k then (k, v) else p) : Nat × V).1 = p.1 := by
  by_cases hp : p.1 = k <;> simp [hp]

theorem jsGet_map_update {V : Type} (m : JSMap V) (k : Nat) (v : V) (k' : Nat) :
    jsGet (m.map (fun p => if p.1 = k then (k, v) else p)) k' =
      if k' = k ∧ jsHas m k then some v else jsGet m k' := by
  induction m with
  | nil => simp [jsGet_nil, jsHas_nil]
  | cons p m ih =>
    simp only [List.map_cons, jsGet_cons, jsHas_cons]
    by_cases hp : p.1 = k
    · by_cases hk : k' = k
      · simp [hp, hk]
      · have hkk : ¬ (k = k') := fun h => hk h.symm
        simp [hp, hk, hkk, ih]
    · by_cases hpk : p.1 = k'
      · have hk : ¬ (k' = k) := fun h => hp (hpk.trans h)
        simp [hp, hpk, hk]
      · simp [hp, hpk, ih]

theorem jsGet_append_single {V : Type} (m : JSMap V) (k : Nat) (v : V) (k' : Nat) :
    jsGet (m ++ [(k, v)]) k' =
      match jsGet m k' with
      | some w => some w
      | none => if k = k' then some v else none := by
  induction m with
  | nil => by_cases hk : k = k' <;> simp [jsGet_nil, jsGet_cons, hk]
  | cons p m ih =>
    rw [List.cons_append, jsGet_cons, jsGet_cons]
    by_cases hp : p.1 = k' <;> simp [hp, ih]

theorem jsGet_jsSet_self {V : Type} (m : JSMap V) (k : Nat) (v : V) :
    jsGet (jsSet m k v) k = some v := by
  unfold jsSet
  by_cases h : jsHas m k
  · rw [if_pos h, jsGet_map_update]
    simp [h]
  · rw [if_neg h, jsGet_append_single]
    have hnone : jsGet m k = none := by
      cases hget : jsGet m k with
      | none => rfl
      | some w =>
        have hsome : jsHas m k = true := by rw [jsHas_eq_isSome, hget]; rfl
        exact absurd hsome h
    simp [hnone]

theorem jsGet_jsSet_ne {V : Type} (m : JSMap V) (k : Nat) (v : V) (k' : Nat)
    (hne : k' ≠ k) : jsGet (jsSet m k v) k' = jsGet m k' := by
  unfold jsSet
  by_cases h : jsHas m k
  · rw [if_pos h, jsGet_map_update]
    simp [hne]
  · rw [if_neg h, jsGet_append_single]
    have hk : ¬ (k = k') := fun hh => hne hh.symm
    cases hget : jsGet m k' <;> simp [hk]

theorem jsGet_jsDelete_self {V : Type} (m : JSMap V) (k : Nat) :
    jsGet (jsDelete m k) k = none := by
  induction m with
  | nil => rfl
  | cons p m ih =>
    rw [jsDelete_cons]
    by_cases hp : p.1 = k
    · simpa [hp] using ih
    · rw [if_neg hp, jsGet_cons, if_neg hp]
      exact ih

theorem jsGet_jsDelete_ne {V : Type} (m : JSMap V) (k : Nat) (k' : Nat)
    (hne : k' ≠ k) : jsGet (jsDelete m k) k' = jsGet m k' := by
  induction m with
  | nil => rfl
  | cons p m ih =>
    rw [jsDelete_cons, jsGet_cons]
    by_cases hp : p.1 = k
    · have hpk : ¬ (p.1 = k') := fun hh => hne (hh.symm.trans hp)
      rw [if_pos hp, if_neg hpk]
      exact ih
    · rw [if_neg hp, jsGet_cons]
      by_cases hpk : p.1 = k' <;> simp [hpk, ih]

theorem jsHas_jsSet {V : Type} (m : JSMap V) (k : Nat) (v : V) (k' : Nat) :
    jsHas (jsSet m k v) k' = (k' = k || jsHas m k') := by
  rw [jsHas_eq_isSome, jsHas_eq_isSome]
  by_cases hk : k' = k
  · subst hk
    simp [jsGet_jsSet_self]
  · rw [jsGet_jsSet_ne m k v k' hk]
    simp [hk]

theorem jsHas_jsDelete {V : Type} (m : JSMap V) (k : Nat) (k' : Nat) :
    jsHas (jsDelete m k) k' = (k' ≠ k && jsHas m k') := by
  rw [jsHas_eq_isSome, jsHas_eq_isSome]
  by_cases hk : k' = k
  · subst hk
    simp [jsGet_jsDelete_self]
  · rw [jsGet_jsDelete_ne m k k' hk]
    simp [hk]

theorem jsDelete_of_not_has {V : Type} (m : JSMap V) (k : Nat)
    (h : jsHas m k = false) : jsDelete m k = m := by
  induction m with
  | nil => rfl
  | cons p m ih =>
    rw [jsHas_cons, Bool.or_eq_false_iff] at h
    rw [jsDelete_cons, if_neg (by simpa using h.1), ih h.2]

theorem jsDelete_map_update {V : Type} (m : JSMap V) (k : Nat) (v : V) :
    jsDelete (m.map (fun p => if p.1 = k then (k, v) else p)) k = jsDelete m k := by
  induction m with
  | nil => rfl
  | cons p m ih =>
    simp only [List.map_cons, jsDelete_cons]
    by_cases hp : p.1 = k <;> simp [hp, ih]

theorem jsDelete_jsSet_self {V : Type} (m : JSMap V) (k : Nat) (v : V) :
    jsDelete (jsSet m k v) k = jsDelete m k := by
  unfold jsSet
  by_cases h : jsHas m k
  · rw [if_pos h, jsDelete_map_update]
  · rw [if_neg h]
    show jsDelete (m ++ [(k, v)]) k = jsDelete m k
    unfold jsDelete
    rw [List.filter_append]
    simp

/-! ### Lock-discipline lemmas -/
/-- When every stored lock value is `true`, the code's truthiness test on
`navigationLocks.get` agrees with `navigationLocks.has`. -/
theorem locksGetD_eq_jsHas (m : JSMap Bool) (hwf : ∀ p ∈ m, p.2 = true) (t : Nat) :
    (jsGet m t).getD false = jsHas m t := by
  rw [jsHas_eq_isSome]
  cases hget : jsGet m t with
  | none => rfl
  | some v =>
    unfold jsGet at hget
    obtain ⟨p, hp, hpv⟩ := Option.map_eq_some'.mp hget
    have hv : v = true := hpv ▸ hwf p (List.mem_of_find?_eq_some hp)
    simp [hv]

/-- A second event for a tab whose lock is held is dropped at the lock check
with no state change. -/
theorem navStep_entry_locked (s : ExtState) (inv : NavInv) (env : NavEnv)
    (hpc : inv.pc = .entry)
    (hlock : (jsGet s.navigationLocks inv.details.tabId).getD false = true) :
    navStep s inv env = (s, .done, []) := by
  simp [navStep, hpc, hlock]

/-- Exhaustive shape of one interceptor segment with respect to the lock map
and the region: skip at the lock check, acquire-and-finish synchronously,
acquire and suspend, stay in the region, or finish and release. -/
theorem navStep_lock_shape (s : ExtState) (inv : NavInv) (env : NavEnv)
    (hpc : inv.pc ≠ .done) :
    (inv.pc = .entry ∧ (jsGet s.navigationLocks inv.details.tabId).getD false = true ∧
      navStep s inv env = (s, .done, [])) ∨
    (inv.pc = .entry ∧ (jsGet s.navigationLocks inv.details.tabId).getD false = false ∧
      (navStep s inv env).2.1 = .done ∧
      (navStep s inv env).1.navigationLocks =
        jsDelete (jsSet s.navigationLocks inv.details.tabId true) inv.details.tabId) ∨
    (inv.pc = .entry ∧ (jsGet s.navigationLocks inv.details.tabId).getD false = false ∧
      (navStep s inv env).2.1 = .atGet ∧
      (navStep s inv env).1.navigationLocks = jsSet s.navigationLocks inv.details.tabId true) ∨
    (inv.pc.inRegion = true ∧ (navStep s inv env).2.1.inRegion = true ∧
      (navStep s inv env).1.navigationLocks = s.navigationLocks) ∨
    (inv.pc.inRegion = true ∧ (navStep s inv env).2.1 = .done ∧
      (navStep s inv env).1.navigationLocks = jsDelete s.navigationLocks inv.details.tabId) := by
  cases hpc2 : inv.pc with
  | entry =>
    by_cases hlock : (jsGet s.navigationLocks inv.details.tabId).getD false = true
    · exact Or.inl ⟨rfl, hlock, navStep_entry_locked s inv env hpc2 hlock⟩
    · rw [Bool.not_eq_true] at hlock
      by_cases hskip : inv.details.frameId ≠ 0 ∨ jsHas s.pinnedTabs inv.details.tabId = false
      · refine Or.inr (Or.inl ⟨rfl, hlock, ?_, ?_⟩) <;>
          simp [navStep, hpc2, hlock, hskip, releaseLock]
      · refine Or.inr (Or.inr (Or.inl ⟨rfl, hlock, ?_, ?_⟩)) <;>
          simp [navStep, hpc2, hlock, hskip]
  | atGet =>
    cases htab : env.tabResult with
    | none =>
      refine Or.inr (Or.inr (Or.inr (Or.inr ⟨by simp [hpc2, NavPC.inRegion], ?_, ?_⟩))) <;>
        simp [navStep, hpc2, htab, releaseLock]
    | some tab =>
      by_cases hdead : tab.pinned = false ∨ tab.url = ""
      · refine Or.inr (Or.inr (Or.inr (Or.inr ⟨by simp [hpc2, NavPC.inRegion], ?_, ?_⟩))) <;>
          simp [navStep, hpc2, htab, hdead, releaseLock]
      · by_cases hecho : (match jsGet s.lastNavigationAttempts inv.details.tabId with
          | some la => decide (env.now - la.timestamp < 1000) && decide (inv.details.url = la.originalUrl)
          | none => false) = true
        · refine Or.inr (Or.inr (Or.inr (Or.inr ⟨by simp [hpc2, NavPC.inRegion], ?_, ?_⟩))) <;>
            simp [navStep, hpc2, htab, hdead, hecho, releaseLock]
        · by_cases hopen : shouldOpenInNewTab s.linkBehavior
            (match jsGet s.pinnedTabs inv.details.tabId with
              | some v => if v = "" then tab.url else v
              | none => tab.url) inv.details.url = false
          · refine Or.inr (Or.inr (Or.inr (Or.inr ⟨by simp [hpc2, NavPC.inRegion], ?_, ?_⟩))) <;>
              simp [navStep, hpc2, htab, hdead, hecho, hopen, releaseLock]
          · refine Or.inr (Or.inr (Or.inr (Or.inl ⟨by simp [hpc2, NavPC.inRegion], ?_, ?_⟩))) <;>
              simp [navStep, hpc2, htab, hdead, hecho, hopen, NavPC.inRegion]
  | atCreate cu =>
    by_cases hok : env.createOk
    · refine Or.inr (Or.inr (Or.inr (Or.inl ⟨by simp [hpc2, NavPC.inRegion], ?_, ?_⟩))) <;>
        simp [navStep, hpc2, hok, NavPC.inRegion]
    · refine Or.inr (Or.inr (Or.inr (Or.inr ⟨by simp [hpc2, NavPC.inRegion], ?_, ?_⟩))) <;>
        simp [navStep, hpc2, hok, releaseLock]
  | atSettle cu =>
    refine Or.inr (Or.inr (Or.inr (Or.inl ⟨by simp [hpc2, NavPC.inRegion], ?_, ?_⟩))) <;>
      simp [navStep, hpc2, NavPC.inRegion]
  | atUpdate1 cu =>
    cases hupd : env.updateResult with
    | none =>
      refine Or.inr (Or.inr (Or.inr (Or.inr ⟨by simp [hpc2, NavPC.inRegion], ?_, ?_⟩))) <;>
        simp [navStep, hpc2, hupd, releaseLock]
    | some t =>
      by_cases hmis : t.url ≠ cu
      · refine Or.inr (Or.inr (Or.inr (Or.inl ⟨by simp [hpc2, NavPC.inRegion], ?_, ?_⟩))) <;>
          simp [navStep, hpc2, hupd, hmis, NavPC.inRegion]
      · refine Or.inr (Or.inr (Or.inr (Or.inr ⟨by simp [hpc2, NavPC.inRegion], ?_, ?_⟩))) <;>
          simp [navStep, hpc2, hupd, hmis, releaseLock]
  | atRetrySleep cu =>
    refine Or.inr (Or.inr (Or.inr (Or.inl ⟨by simp [hpc2, NavPC.inRegion], ?_, ?_⟩))) <;>
      simp [navStep, hpc2, NavPC.inRegion]
  | atUpdate2 cu =>
    refine Or.inr (Or.inr (Or.inr (Or.inr ⟨by simp [hpc2, NavPC.inRegion], ?_, ?_⟩))) <;>
      simp [navStep, hpc2, releaseLock]
  | done => exact absurd hpc2 hpc

/-- The interceptor never touches another tab's lock. -/
theorem navStep_lock_other (s : ExtState) (inv : NavInv) (env : NavEnv)
    (hpc : inv.pc ≠ .done) (t : Nat) (ht : t ≠ inv.details.tabId) :
    jsGet (navStep s inv env).1.navigationLocks t = jsGet s.navigationLocks t := by
  rcases navStep_lock_shape s inv env hpc with
    ⟨_, _, heq⟩ | ⟨_, _, _, hl⟩ | ⟨_, _, _, hl⟩ | ⟨_, _, hl⟩ | ⟨_, _, hl⟩
  · rw [heq]
  · rw [hl, jsGet_jsDelete_ne _ _ _ ht, jsGet_jsSet_ne _ _ _ _ ht]
  · rw [hl, jsGet_jsSet_ne _ _ _ _ ht]
  · rw [hl]
  · rw [hl, jsGet_jsDelete_ne _ _ _ ht]

/-- The interceptor stores only `true` in the lock map. -/
theorem navStep_locksWF (s : ExtState) (inv : NavInv) (env : NavEnv)
    (hpc : inv.pc ≠ .done) (hwf : ∀ p ∈ s.navigationLocks, p.2 = true) :
    ∀ p ∈ (navStep s inv env).1.navigationLocks, p.2 = true := by
  have hdel : ∀ (m : JSMap Bool), (∀ p ∈ m, p.2 = true) →
      ∀ (k : Nat), ∀ p ∈ jsDelete m k, p.2 = true := by
    intro m hm k p hp
    exact hm p (List.mem_of_mem_filter hp)
  have hset : ∀ (m : JSMap Bool), (∀ p ∈ m, p.2 = true) →
      ∀ (k : Nat), ∀ p ∈ jsSet m k true, p.2 = true := by
    intro m hm k p hp
    unfold jsSet at hp
    by_cases h : jsHas m k
    · rw [if_pos h] at hp
      rw [List.mem_map] at hp
      obtain ⟨q, hq, rfl⟩ := hp
      by_cases hqk : q.1 = k <;> simp [hqk, hm q hq]
    · rw [if_neg h, List.mem_append] at hp
      rcases hp with hp | hp
      · exact hm p hp
      · simp only [List.mem_singleton] at hp
        rw [hp]
  rcases navStep_lock_shape s inv env hpc with
    ⟨_, _, heq⟩ | ⟨_, _, _, hl⟩ | ⟨_, _, _, hl⟩ | ⟨_, _, hl⟩ | ⟨_, _, hl⟩
  · rw [heq]; exact hwf
  · rw [hl]; exact hdel _ (hset _ hwf _) _
  · rw [hl]; exact hset _ hwf _
  · rw [hl]; exact hwf
  · rw [hl]; exact hdel _ hwf _

theorem regionCount_eq_countP (c : NavConfig) (t : Nat) :
    regionCount c t = c.invs.countP (regionPred t) := rfl

/-- Preservation of `lockInv` by every interleaving step. -/
theorem lockInv_preserved (c c' : NavConfig) (hinv : lockInv c)
    (hstep : NavStepRel c c') : lockInv c' := by
  obtain ⟨i, env, inv, hget, hpc, rfl⟩ := hstep
  obtain ⟨hwf, hcount⟩ := hinv
  obtain ⟨hilen, hival⟩ := List.getElem?_eq_some.mp hget
  have hstepAt : stepAt c i env =
      ⟨(navStep c.st inv env).1, c.invs.set i ⟨inv.details, (navStep c.st inv env).2.1⟩⟩ := by
    unfold stepAt
    rw [hget]
  rw [hstepAt]
  have hgetD : (jsGet c.st.navigationLocks inv.details.tabId).getD false =
      jsHas c.st.navigationLocks inv.details.tabId := locksGetD_eq_jsHas _ hwf _
  constructor
  · exact navStep_locksWF c.st inv env hpc hwf
  · intro t
    have hcnt := List.countP_set (regionPred t) c.invs i
      ⟨inv.details, (navStep c.st inv env).2.1⟩ hilen
    rw [hival] at hcnt
    show List.countP (regionPred t) _ = _
    rw [hcnt]
    by_cases ht : t = inv.details.tabId
    · subst ht
      have hmem : inv ∈ c.invs := by
        rw [← hival]
        exact List.getElem_mem hilen
      have h0 := hcount inv.details.tabId
      rw [regionCount_eq_countP] at h0
      rcases navStep_lock_shape c.st inv env hpc with
        ⟨hp1, hp2, heq⟩ | ⟨hp1, hp2, hp3, hl⟩ | ⟨hp1, hp2, hp3, hl⟩ | ⟨hp1, hp2, hl⟩ | ⟨hp1, hp2, hl⟩
      · have e1 : regionPred inv.details.tabId inv = false := by
          simp [regionPred, hp1, NavPC.inRegion]
        rw [heq]
        dsimp only
        rw [e1]
        have e2 : regionPred inv.details.tabId ⟨inv.details, NavPC.done⟩ = false := by
          simp [regionPred, NavPC.inRegion]
        rw [e2]
        simpa using h0
      · have hhas : jsHas c.st.navigationLocks inv.details.tabId = false := by
          rw [← hgetD, hp2]
        have e1 : regionPred inv.details.tabId inv = false := by
          simp [regionPred, hp1, NavPC.inRegion]
        have e2 : regionPred inv.details.tabId ⟨inv.details, (navStep c.st inv env).2.1⟩ = false := by
          simp [regionPred, hp3, NavPC.inRegion]
        rw [e1, e2, hl, jsDelete_jsSet_self, jsDelete_of_not_has _ _ hhas]
        simpa using h0
      · have hhas : jsHas c.st.navigationLocks inv.details.tabId = false := by
          rw [← hgetD, hp2]
        have e1 : regionPred inv.details.tabId inv = false := by
          simp [regionPred, hp1, NavPC.inRegion]
        have e2 : regionPred inv.details.tabId ⟨inv.details, (navStep c.st inv env).2.1⟩ = true := by
          simp [regionPred, hp3, NavPC.inRegion]
        rw [e1, e2, hl, jsHas_jsSet]
        rw [hhas] at h0
        simp only [Bool.false_eq_true, if_false] at h0
        simp [h0]
      · have hpos : 0 < List.countP (regionPred inv.details.tabId) c.invs := by
          rw [List.countP_pos_iff]
          exact ⟨inv, hmem, by simp [regionPred, hp1]⟩
        have hhas : jsHas c.st.navigationLocks inv.details.tabId = true := by
          by_contra hh
          rw [Bool.not_eq_true] at hh
          rw [hh] at h0
          simp only [Bool.false_eq_true, if_false] at h0
          omega
        have hone : List.countP (regionPred inv.details.tabId) c.invs = 1 := by
          rw [h0, if_pos hhas]
        have e1 : regionPred inv.details.tabId inv = true := by
          simp [regionPred, hp1]
        have e2 : regionPred inv.details.tabId ⟨inv.details, (navStep c.st inv env).2.1⟩ = true := by
          simp [regionPred, hp2]
        rw [e1, e2, hl, hhas, hone]
        simp
      · have hpos : 0 < List.countP (regionPred inv.details.tabId) c.invs := by
          rw [List.countP_pos_iff]
          exact ⟨inv, hmem, by simp [regionPred, hp1]⟩
        have hhas : jsHas c.st.navigationLocks inv.details.tabId = true := by
          by_contra hh
          rw [Bool.not_eq_true] at hh
          rw [hh] at h0
          simp only [Bool.false_eq_true, if_false] at h0
          omega
        have hone : List.countP (regionPred inv.details.tabId) c.invs = 1 := by
          rw [h0, if_pos hhas]
        have e1 : regionPred inv.details.tabId inv = true := by
          simp [regionPred, hp1]
        have e2 : regionPred inv.details.tabId ⟨inv.details, (navStep c.st inv env).2.1⟩ = false := by
          simp [regionPred, hp2, NavPC.inRegion]
        rw [e1, e2, hl, jsHas_jsDelete, hone]
        simp
    · have htt : inv.details.tabId ≠ t := fun h => ht h.symm
      have hpredOld : regionPred t inv = false := by
        simp [regionPred, htt]
      have hpredNew : regionPred t ⟨inv.details, (navStep c.st inv env).2.1⟩ = false := by
        simp [regionPred, htt]
      rw [hpredOld, hpredNew]
      have hlockOther : jsGet (navStep c.st inv env).1.navigationLocks t =
          jsGet c.st.navigationLocks t := navStep_lock_other c.st inv env hpc t ht
      have hhasOther : jsHas (navStep c.st inv env).1.navigationLocks t =
          jsHas c.st.navigationLocks t := by
        rw [jsHas_eq_isSome, jsHas_eq_isSome, hlockOther]
      rw [hhasOther]
      simpa using hcount t

/-- Any quiescent starting configuration satisfies `lockInv`. -/
theorem lockInv_of_navInit (c : NavConfig) (h : navInit c) : lockInv c := by
  obtain ⟨hlocks, hentry⟩ := h
  constructor
  · intro p hp
    rw [hlocks] at hp
    exact absurd hp (List.not_mem_nil p)
  · intro t
    have hhas : jsHas c.st.navigationLocks t = false := by
      rw [hlocks]
      rfl
    rw [hhas]
    simp only [Bool.false_eq_true, if_false, regionCount_eq_countP]
    rw [List.countP_eq_zero]
    intro inv hinv
    simp [regionPred, hentry inv hinv, NavPC.inRegion]

/-- Every configuration reachable from a quiescent one satisfies `lockInv`. -/
theorem lockInv_reachable (c0 c : NavConfig) (h0 : navInit c0)
    (hr : Relation.ReflTransGen NavStepRel c0 c) : lockInv c := by
  induction hr with
  | refl => exact lockInv_of_navInit c0 h0
  | tail hsteps hstep ih => exact lockInv_preserved _ _ ih hstep

/-! ### Echo suppression along a whole run -/
/-- Under a fresh echo record, one interceptor segment issues no host calls,
leaves the registry and the attempt map untouched, and stays within
`entry`/`atGet`/`done`. -/
theorem navStep_echo (s : ExtState) (d : NavDetails) (la : Attempt) (env : NavEnv)
    (pc : NavPC) (hpc : pc = .entry ∨ pc = .atGet ∨ pc = .done)
    (hla : jsGet s.lastNavigationAttempts d.tabId = some la)
    (hurl : d.url = la.originalUrl)
    (hnow : env.now - la.timestamp < 1000) :
    (navStep s ⟨d, pc⟩ env).2.2 = [] ∧
    (navStep s ⟨d, pc⟩ env).1.pinnedTabs = s.pinnedTabs ∧
    (navStep s ⟨d, pc⟩ env).1.lastNavigationAttempts = s.lastNavigationAttempts ∧
    ((navStep s ⟨d, pc⟩ env).2.1 = .entry ∨ (navStep s ⟨d, pc⟩ env).2.1 = .atGet ∨
      (navStep s ⟨d, pc⟩ env).2.1 = .done) := by
  rcases hpc with hpc | hpc | hpc
  · subst hpc
    by_cases hlock : (jsGet s.navigationLocks d.tabId).getD false = true
    · simp [navStep, hlock]
    · rw [Bool.not_eq_true] at hlock
      by_cases hskip : d.frameId ≠ 0 ∨ jsHas s.pinnedTabs d.tabId = false
      · simp [navStep, hlock, hskip, releaseLock]
      · simp [navStep, hlock, hskip]
  · subst hpc
    cases htab : env.tabResult with
    | none => simp [navStep, htab, releaseLock]
    | some tab =>
      by_cases hdead : tab.pinned = false ∨ tab.url = ""
      · simp [navStep, htab, hdead, releaseLock]
      · have hecho : (match jsGet s.lastNavigationAttempts d.tabId with
            | some la2 => decide (env.now - la2.timestamp < 1000) &&
                decide (d.url = la2.originalUrl)
            | none => false) = true := by
          rw [hla]
          simp [hnow, hurl]
        simp [navStep, htab, hdead, hecho, releaseLock]
  · subst hpc
    simp [navStep]

/-- Under a fresh echo record, a complete single-invocation run issues no host
calls at all and leaves the registry and attempt map untouched. -/
theorem navRun_echo (s : ExtState) (d : NavDetails) (la : Attempt) (pc : NavPC)
    (envs : List NavEnv)
    (hpc : pc = .entry ∨ pc = .atGet ∨ pc = .done)
    (hla : jsGet s.lastNavigationAttempts d.tabId = some la)
    (hurl : d.url = la.originalUrl)
    (henv : ∀ e ∈ envs, e.now - la.timestamp < 1000) :
    (navRun s ⟨d, pc⟩ envs).2.2 = [] ∧
    (navRun s ⟨d, pc⟩ envs).1.pinnedTabs = s.pinnedTabs ∧
    (navRun s ⟨d, pc⟩ envs).1.lastNavigationAttempts = s.lastNavigationAttempts := by
  induction envs generalizing s pc with
  | nil => exact ⟨rfl, rfl, rfl⟩
  | cons e envs ih =>
    obtain ⟨ha, hpt, hlat, hpc'⟩ :=
      navStep_echo s d la e pc hpc hla hurl (henv e (List.mem_cons_self e envs))
    have hla' : jsGet (navStep s ⟨d, pc⟩ e).1.lastNavigationAttempts d.tabId = some la := by
      rw [hlat, hla]
    obtain ⟨ha2, hpt2, hlat2⟩ := ih (navStep s ⟨d, pc⟩ e).1 (navStep s ⟨d, pc⟩ e).2.1
      hpc' hla' (fun e2 he2 => henv e2 (List.mem_cons_of_mem e he2))
    simp only [navRun]
    exact ⟨by rw [ha, ha2, List.nil_append],
      by rw [hpt2, hpt], by rw [hlat2, hlat]⟩

/-! ### Registry/host consistency -/
/-- A map-shaped host event leaves other tabs' pinned/non-blank status alone. -/
theorem hostPinnedNonBlank_map_ne (host : Host) (f : HostTab → HostTab)
    (tabId id : Nat) (hne : id ≠ tabId)
    (hf : ∀ t, t.id ≠ tabId → f t = t) (hfid : ∀ t, (f t).id = t.id) :
    hostPinnedNonBlank (host.map f) id ↔ hostPinnedNonBlank host id := by
  unfold hostPinnedNonBlank
  constructor
  · rintro ⟨t', ht', hid, hok⟩
    rw [List.mem_map] at ht'
    obtain ⟨t, ht, rfl⟩ := ht'
    have htid : t.id ≠ tabId := by
      rw [← hfid t, hid]
      exact hne
    rw [hf t htid] at hid hok
    exact ⟨t, ht, hid, hok⟩
  · rintro ⟨t, ht, hid, hok⟩
    have htid : t.id ≠ tabId := hid ▸ hne
    exact ⟨f t, List.mem_map_of_mem f ht, by rw [hf t htid]; exact hid,
      by rw [hf t htid]; exact hok⟩

theorem hostPinnedNonBlank_close_ne (host : Host) (tabId id : Nat) (hne : id ≠ tabId) :
    hostPinnedNonBlank (applyHost (.close tabId) host) id ↔ hostPinnedNonBlank host id := by
  unfold hostPinnedNonBlank applyHost
  constructor
  · rintro ⟨t, ht, hid, hok⟩
    exact ⟨t, List.mem_of_mem_filter ht, hid, hok⟩
  · rintro ⟨t, ht, hid, hok⟩
    refine ⟨t, List.mem_filter.mpr ⟨ht, ?_⟩, hid, hok⟩
    simp [hid, hne]

theorem hostPinnedNonBlank_close_self (host : Host) (tabId : Nat) :
    ¬ hostPinnedNonBlank (applyHost (.close tabId) host) tabId := by
  rintro ⟨t, ht, hid, hok⟩
  unfold applyHost at ht
  rw [List.mem_filter] at ht
  have h2 := ht.2
  simp [hid] at h2

/-- With distinct ids, the member with a given id is what `find?` returns. -/
theorem find?_of_mem_nodup (host : Host) (hnd : (host.map (fun t => t.id)).Nodup)
    (t : HostTab) (ht : t ∈ host) (id : Nat) (hid : t.id = id) :
    host.find? (fun t2 => t2.id = id) = some t := by
  induction host with
  | nil => exact absurd ht (List.not_mem_nil t)
  | cons h l ih =>
    rw [List.map_cons, List.nodup_cons] at hnd
    rcases List.mem_cons.mp ht with rfl | htl
    · rw [List.find?_cons]
      simp [hid]
    · have hhid : h.id ≠ id := by
        intro hh
        exact hnd.1 (by rw [hh, ← hid]; exact List.mem_map_of_mem _ htl)
      rw [List.find?_cons]
      simp only [hhid, decide_eq_false hhid]
      exact ih hnd.2 htl

/-- With distinct ids, pinned-non-blank status is read off `find?`. -/
theorem hostPinnedNonBlank_iff_find? (host : Host)
    (hnd : (host.map (fun t => t.id)).Nodup) (id : Nat) :
    hostPinnedNonBlank host id ↔
      ∃ tab, host.find? (fun t => t.id = id) = some tab ∧
        tab.pinned = true ∧ tab.url ≠ "" ∧ tab.url ≠ "about:blank" := by
  constructor
  · rintro ⟨t, ht, hid, hok⟩
    exact ⟨t, find?_of_mem_nodup host hnd t ht id hid, hok⟩
  · rintro ⟨tab, hfind, hok⟩
    exact ⟨tab, List.mem_of_find?_eq_some hfind,
      by simpa using List.find?_some hfind, hok⟩

/-- Finding by id commutes with an id-preserving map. -/
theorem find?_map_id (host : Host) (f : HostTab → HostTab)
    (hfid : ∀ t, (f t).id = t.id) (id : Nat) :
    (host.map f).find? (fun t => t.id = id) =
      (host.find? (fun t => t.id = id)).map f := by
  rw [List.find?_map]
  have hpred : ((fun t : HostTab => decide (t.id = id)) ∘ f) =
      fun t : HostTab => decide (t.id = id) := by
    funext t
    simp [hfid t]
  rw [hpred]

/-- Host well-formedness survives every well-formed event. -/
theorem hostWF_applyHost (host : Host) (e : HostEvent) (hwf : hostWF host)
    (hne : eventNonBlankURL e) : hostWF (applyHost e host) := by
  obtain ⟨hnd, hurl⟩ := hwf
  cases e with
  | pinChange tabId p =>
    constructor
    · have : (applyHost (.pinChange tabId p) host).map (fun t => t.id) =
          host.map (fun t => t.id) := by
        unfold applyHost
        rw [List.map_map]
        apply List.map_congr_left
        intro t ht
        by_cases h : t.id = tabId <;> simp [pinEventMap, h]
      rw [this]
      exact hnd
    · intro t ht
      unfold applyHost at ht
      rw [List.mem_map] at ht
      obtain ⟨t0, ht0, rfl⟩ := ht
      by_cases h : t0.id = tabId <;> simpa [pinEventMap, h] using hurl t0 ht0
  | urlChange tabId u =>
    obtain ⟨hu, _⟩ := hne
    constructor
    · have : (applyHost (.urlChange tabId u) host).map (fun t => t.id) =
          host.map (fun t => t.id) := by
        unfold applyHost
        rw [List.map_map]
        apply List.map_congr_left
        intro t ht
        by_cases h : t.id = tabId <;> simp [urlEventMap, h]
      rw [this]
      exact hnd
    · intro t ht
      unfold applyHost at ht
      rw [List.mem_map] at ht
      obtain ⟨t0, ht0, rfl⟩ := ht
      by_cases h : t0.id = tabId
      · simpa [urlEventMap, h] using hu
      · simpa [urlEventMap, h] using hurl t0 ht0
  | close tabId =>
    constructor
    · unfold applyHost
      exact ((List.filter_sublist host).map (fun t => t.id)).nodup hnd
    · intro t ht
      unfold applyHost at ht
      exact hurl t (List.mem_of_mem_filter ht)

/-- Membership shape of the registry built by `initializeExtension`'s loop. -/
theorem jsHas_initFold (l : List HostTab) (m : JSMap String) (id : Nat) :
    jsHas (l.foldl (fun m2 tab =>
      if tab.url ≠ "" ∧ tab.url ≠ "about:blank" then jsSet m2 tab.id tab.url else m2) m) id
        = true ↔
    jsHas m id = true ∨ ∃ t ∈ l, t.url ≠ "" ∧ t.url ≠ "about:blank" ∧ t.id = id := by
  induction l generalizing m with
  | nil => simp
  | cons t l ih =>
    rw [List.foldl_cons, ih]
    by_cases hcond : t.url ≠ "" ∧ t.url ≠ "about:blank"
    · rw [if_pos hcond, jsHas_jsSet]
      constructor
      · rintro (h | h)
        · rcases Bool.or_eq_true _ _ |>.mp h with h | h
          · exact Or.inr ⟨t, List.mem_cons_self t l, hcond.1, hcond.2,
              (decide_eq_true_iff.mp h).symm⟩
          · exact Or.inl h
        · obtain ⟨t2, ht2, h1, h2, h3⟩ := h
          exact Or.inr ⟨t2, List.mem_cons_of_mem t ht2, h1, h2, h3⟩
      · rintro (h | ⟨t2, ht2, h1, h2, h3⟩)
        · exact Or.inl (by simp [h])
        · rcases List.mem_cons.mp ht2 with rfl | ht2l
          · exact Or.inl (by simp [h3])
          · exact Or.inr ⟨t2, ht2l, h1, h2, h3⟩
    · rw [if_neg hcond]
      constructor
      · rintro (h | ⟨t2, ht2, h1, h2, h3⟩)
        · exact Or.inl h
        · exact Or.inr ⟨t2, List.mem_cons_of_mem t ht2, h1, h2, h3⟩
      · rintro (h | ⟨t2, ht2, h1, h2, h3⟩)
        · exact Or.inl h
        · rcases List.mem_cons.mp ht2 with rfl | ht2l
          · exact absurd ⟨h1, h2⟩ hcond
          · exact Or.inr ⟨t2, ht2l, h1, h2, h3⟩

/-- Initialization establishes the registry/host invariant. -/
theorem registryInv_init (host : Host) (s : ExtState) :
    registryInv host (initializeExtension host s) := by
  intro id
  show jsHas ((host.filter (fun t => t.pinned)).foldl _ []) id = true ↔ _
  rw [jsHas_initFold]
  unfold hostPinnedNonBlank
  constructor
  · rintro (h | ⟨t, ht, h1, h2, h3⟩)
    · exact absurd h (by simp [jsHas_nil])
    · rw [List.mem_filter] at ht
      exact ⟨t, ht.1, h3, by simpa using ht.2, h1, h2⟩
  · rintro ⟨t, ht, hid, hpin, hu1, hu2⟩
    exact Or.inr ⟨t, List.mem_filter.mpr ⟨ht, by simp [hpin]⟩, hu1, hu2, hid⟩

theorem applyHost_pinChange (tabId : Nat) (p : Bool) (host : Host) :
    applyHost (.pinChange tabId p) host = host.map (pinEventMap tabId p) := rfl

theorem applyHost_urlChange (tabId : Nat) (u : String) (host : Host) :
    applyHost (.urlChange tabId u) host = host.map (urlEventMap tabId u) := rfl

theorem pinEventMap_id (tabId : Nat) (p : Bool) (t : HostTab) :
    (pinEventMap tabId p t).id = t.id := by
  by_cases h : t.id = tabId <;> simp [pinEventMap, h]

theorem pinEventMap_other (tabId : Nat) (p : Bool) (t : HostTab) (h : t.id ≠ tabId) :
    pinEventMap tabId p t = t := by
  simp [pinEventMap, h]

theorem urlEventMap_id (tabId : Nat) (u : String) (t : HostTab) :
    (urlEventMap tabId u t).id = t.id := by
  by_cases h : t.id = tabId <;> simp [urlEventMap, h]

theorem urlEventMap_other (tabId : Nat) (u : String) (t : HostTab) (h : t.id ≠ tabId) :
    urlEventMap tabId u t = t := by
  simp [urlEventMap, h]

theorem systemStep_pinChange_some (tabId : Nat) (p : Bool) (host : Host) (s : ExtState)
    (tab : HostTab)
    (h : (host.map (pinEventMap tabId p)).find? (fun t => t.id = tabId) = some tab) :
    systemStep (.pinChange tabId p) host s =
      (host.map (pinEventMap tabId p), handleTabUpdated tabId ⟨some p, none⟩ tab s) := by
  simp only [systemStep, applyHost, h]

theorem systemStep_pinChange_none (tabId : Nat) (p : Bool) (host : Host) (s : ExtState)
    (h : (host.map (pinEventMap tabId p)).find? (fun t => t.id = tabId) = none) :
    systemStep (.pinChange tabId p) host s = (host.map (pinEventMap tabId p), s) := by
  simp only [systemStep, applyHost, h]

theorem systemStep_urlChange_some (tabId : Nat) (u : String) (host : Host) (s : ExtState)
    (tab : HostTab)
    (h : (host.map (urlEventMap tabId u)).find? (fun t => t.id = tabId) = some tab) :
    systemStep (.urlChange tabId u) host s =
      (host.map (urlEventMap tabId u), handleTabUpdated tabId ⟨none, some u⟩ tab s) := by
  simp only [systemStep, applyHost, h]

theorem systemStep_urlChange_none (tabId : Nat) (u : String) (host : Host) (s : ExtState)
    (h : (host.map (urlEventMap tabId u)).find? (fun t => t.id = tabId) = none) :
    systemStep (.urlChange tabId u) host s = (host.map (urlEventMap tabId u), s) := by
  simp only [systemStep, applyHost, h]

theorem systemStep_close (tabId : Nat) (host : Host) (s : ExtState) :
    systemStep (.close tabId) host s =
      (applyHost (.close tabId) host, handleTabRemoved tabId s) := rfl

theorem handleTabUpdated_pin (tabId : Nat) (p : Bool) (tab : HostTab) (s : ExtState) :
    handleTabUpdated tabId ⟨some p, none⟩ tab s =
      savePinnedTabs { s with pinnedTabs :=
        (if p = true ∧ tab.url ≠ "about:blank" then jsSet s.pinnedTabs tabId tab.url
          else jsDelete s.pinnedTabs tabId) } := rfl

theorem handleTabUpdated_url (tabId : Nat) (u : String) (tab : HostTab) (s : ExtState) :
    handleTabUpdated tabId ⟨none, some u⟩ tab s =
      if u ≠ "" ∧ tab.pinned = true ∧ tab.url ≠ "about:blank" then
        savePinnedTabs { s with pinnedTabs := jsSet s.pinnedTabs tabId tab.url }
      else s := rfl

/-- The amended preservation statement: every lifecycle event except a
URL change to a blank URL keeps the registry/host invariant. -/
theorem registryInv_step (host : Host) (s : ExtState) (e : HostEvent)
    (hwf : hostWF host) (hinv : registryInv host s) (hne : eventNonBlankURL e) :
    registryInv (systemStep e host s).1 (systemStep e host s).2 := by
  cases e with
  | pinChange tabId p =>
    have hwf' := hostWF_applyHost host (.pinChange tabId p) hwf trivial
    rw [applyHost_pinChange] at hwf'
    cases hfind : (host.map (pinEventMap tabId p)).find? (fun t => t.id = tabId) with
    | none =>
      rw [systemStep_pinChange_none tabId p host s hfind]
      intro id
      dsimp only
      have hnone : ∀ x ∈ host.map (pinEventMap tabId p), x.id ≠ tabId := by
        intro x hx hxx
        exact (List.find?_eq_none.mp hfind x hx) (by simp [hxx])
      by_cases hid : id = tabId
      · subst hid
        apply iff_of_false
        · intro hhas
          obtain ⟨t, ht, htid, hok⟩ := (hinv id).mp hhas
          exact hnone (pinEventMap id p t) (List.mem_map_of_mem _ ht)
            (by rw [pinEventMap_id]; exact htid)
        · rintro ⟨t', ht', htid, hok⟩
          exact hnone t' ht' htid
      · rw [hostPinnedNonBlank_map_ne host _ tabId id hid
          (pinEventMap_other tabId p) (pinEventMap_id tabId p)]
        exact hinv id
    | some tab =>
      have hfind2 : (host.find? (fun t => t.id = tabId)).map (pinEventMap tabId p) = some tab := by
        rw [← find?_map_id host _ (pinEventMap_id tabId p) tabId]
        exact hfind
      obtain ⟨t0, ht0find, ht0eq⟩ := Option.map_eq_some'.mp hfind2
      have ht0mem : t0 ∈ host := List.mem_of_find?_eq_some ht0find
      have ht0id : t0.id = tabId := by simpa using List.find?_some ht0find
      have htabpin : tab.pinned = p := by
        rw [← ht0eq]
        simp [pinEventMap, ht0id]
      have htaburl : tab.url = t0.url := by
        rw [← ht0eq]
        by_cases h : t0.id = tabId <;> simp [pinEventMap, h]
      have hurlne : tab.url ≠ "" := by
        rw [htaburl]
        exact hwf.2 t0 ht0mem
      rw [systemStep_pinChange_some tabId p host s tab hfind, handleTabUpdated_pin]
      intro id
      dsimp only [savePinnedTabs]
      by_cases hid : id = tabId
      · subst hid
        by_cases hcond : p = true ∧ tab.url ≠ "about:blank"
        · rw [if_pos hcond]
          apply iff_of_true
          · rw [jsHas_jsSet]
            simp
          · rw [hostPinnedNonBlank_iff_find? _ hwf'.1 _]
            exact ⟨tab, hfind, by rw [htabpin]; exact hcond.1, hurlne, hcond.2⟩
        · rw [if_neg hcond]
          apply iff_of_false
          · rw [jsHas_jsDelete]
            simp
          · rw [hostPinnedNonBlank_iff_find? _ hwf'.1 _]
            rintro ⟨tab2, hfind2b, hok2⟩
            rw [hfind] at hfind2b
            injection hfind2b with hh
            subst hh
            exact hcond ⟨by rw [← htabpin]; exact hok2.1, hok2.2.2⟩
      · have hreg : jsHas (if p = true ∧ tab.url ≠ "about:blank"
            then jsSet s.pinnedTabs tabId tab.url else jsDelete s.pinnedTabs tabId) id =
            jsHas s.pinnedTabs id := by
          by_cases hcond : p = true ∧ tab.url ≠ "about:blank"
          · rw [if_pos hcond, jsHas_jsSet]
            simp [hid]
          · rw [if_neg hcond, jsHas_jsDelete]
            simp [hid]
        rw [hreg, hostPinnedNonBlank_map_ne host _ tabId id hid
          (pinEventMap_other tabId p) (pinEventMap_id tabId p)]
        exact hinv id
  | urlChange tabId u =>
    obtain ⟨hu, hub⟩ := hne
    have hwf' := hostWF_applyHost host (.urlChange tabId u) hwf ⟨hu, hub⟩
    rw [applyHost_urlChange] at hwf'
    cases hfind : (host.map (urlEventMap tabId u)).find? (fun t => t.id = tabId) with
    | none =>
      rw [systemStep_urlChange_none tabId u host s hfind]
      intro id
      dsimp only
      have hnone : ∀ x ∈ host.map (urlEventMap tabId u), x.id ≠ tabId := by
        intro x hx hxx
        exact (List.find?_eq_none.mp hfind x hx) (by simp [hxx])
      by_cases hid : id = tabId
      · subst hid
        apply iff_of_false
        · intro hhas
          obtain ⟨t, ht, htid, hok⟩ := (hinv id).mp hhas
          exact hnone (urlEventMap id u t) (List.mem_map_of_mem _ ht)
            (by rw [urlEventMap_id]; exact htid)
        · rintro ⟨t', ht', htid, hok⟩
          exact hnone t' ht' htid
      · rw [hostPinnedNonBlank_map_ne host _ tabId id hid
          (urlEventMap_other tabId u) (urlEventMap_id tabId u)]
        exact hinv id
    | some tab =>
      have hfind2 : (host.find? (fun t => t.id = tabId)).map (urlEventMap tabId u) = some tab := by
        rw [← find?_map_id host _ (urlEventMap_id tabId u) tabId]
        exact hfind
      obtain ⟨t0, ht0find, ht0eq⟩ := Option.map_eq_some'.mp hfind2
      have ht0mem : t0 ∈ host := List.mem_of_find?_eq_some ht0find
      have ht0id : t0.id = tabId := by simpa using List.find?_some ht0find
      have htaburl : tab.url = u := by
        rw [← ht0eq]
        simp [urlEventMap, ht0id]
      have htabpin : tab.pinned = t0.pinned := by
        rw [← ht0eq]
        by_cases h : t0.id = tabId <;> simp [urlEventMap, h]
      rw [systemStep_urlChange_some tabId u host s tab hfind, handleTabUpdated_url]
      intro id
      by_cases hpin : tab.pinned = true
      · rw [if_pos ⟨hu, hpin, by rw [htaburl]; exact hub⟩]
        dsimp only [savePinnedTabs]
        by_cases hid : id = tabId
        · subst hid
          apply iff_of_true
          · rw [jsHas_jsSet]
            simp
          · rw [hostPinnedNonBlank_iff_find? _ hwf'.1 _]
            exact ⟨tab, hfind, hpin, by rw [htaburl]; exact hu, by rw [htaburl]; exact hub⟩
        · rw [jsHas_jsSet]
          simp only [hid, decide_eq_false hid, Bool.false_or]
          rw [hostPinnedNonBlank_map_ne host _ tabId id hid
            (urlEventMap_other tabId u) (urlEventMap_id tabId u)]
          exact hinv id
      · rw [if_neg (fun hc => hpin hc.2.1)]
        by_cases hid : id = tabId
        · subst hid
          apply iff_of_false
          · intro hhas
            rw [hinv id, hostPinnedNonBlank_iff_find? _ hwf.1 _] at hhas
            obtain ⟨tab2, hfind2b, hok2⟩ := hhas
            rw [ht0find] at hfind2b
            injection hfind2b with hh
            subst hh
            exact hpin (htabpin ▸ hok2.1)
          · rw [hostPinnedNonBlank_iff_find? _ hwf'.1 _]
            rintro ⟨tab2, hfind2b, hok2⟩
            rw [hfind] at hfind2b
            injection hfind2b with hh
            subst hh
            exact hpin hok2.1
        · rw [hostPinnedNonBlank_map_ne host _ tabId id hid
            (urlEventMap_other tabId u) (urlEventMap_id tabId u)]
          exact hinv id
  | close tabId =>
    rw [systemStep_close]
    intro id
    dsimp only
    unfold handleTabRemoved
    by_cases hhas : jsHas s.pinnedTabs tabId = true
    · rw [if_pos hhas]
      dsimp only [savePinnedTabs]
      by_cases hid : id = tabId
      · subst hid
        apply iff_of_false
        · rw [jsHas_jsDelete]
          simp
        · exact hostPinnedNonBlank_close_self host id
      · rw [jsHas_jsDelete]
        have hdec : decide (id ≠ tabId) = true := by simp [hid]
        rw [hdec, Bool.true_and, hostPinnedNonBlank_close_ne host tabId id hid]
        exact hinv id
    · rw [if_neg hhas]
      by_cases hid : id = tabId
      · subst hid
        apply iff_of_false
        · intro h
          exact hhas h
        · exact hostPinnedNonBlank_close_self host id
      · rw [hostPinnedNonBlank_close_ne host tabId id hid]
        exact hinv id

/-- The host component of a system step is the event applied to the host. -/
theorem systemStep_fst (e : HostEvent) (host : Host) (s : ExtState) :
    (systemStep e host s).1 = applyHost e host := by
  cases e with
  | pinChange tabId p =>
    cases h : (host.map (pinEventMap tabId p)).find? (fun t => t.id = tabId) with
    | some tab => rw [systemStep_pinChange_some tabId p host s tab h, applyHost_pinChange]
    | none => rw [systemStep_pinChange_none tabId p host s h, applyHost_pinChange]
  | urlChange tabId u =>
    cases h : (host.map (urlEventMap tabId u)).find? (fun t => t.id = tabId) with
    | some tab => rw [systemStep_urlChange_some tabId u host s tab h, applyHost_urlChange]
    | none => rw [systemStep_urlChange_none tabId u host s h, applyHost_urlChange]
  | close tabId => rw [systemStep_close]

/-! ## The claims -/
/-- C1 (amended): with `linkBehavior = different-domains`, for distinct URLs
that both parse and whose schemes are not privileged (`about:`, `chrome:`,
`moz-extension:`), `shouldOpenInNewTab` returns `true` iff the registrable
domains (last two dot-separated labels of the hostnames) differ. The claim's
"in particular" example is wrong: `https://a.example.com/x` and
`https://b.example.com/y` share the registrable domain `example.com`, so the
function returns `false` there (see the counterexample). -/
theorem claim1_registrable_domains (u1 u2 : String) (r1 r2 : URLRec)
    (hne : u1 ≠ u2)
    (h1 : parseURL u1 = some r1) (h2 : parseURL u2 = some r2)
    (hs1 : r1.protocol ∉ (["about:", "chrome:", "moz-extension:"] : List String))
    (hs2 : r2.protocol ∉ (["about:", "chrome:", "moz-extension:"] : List String)) :
    shouldOpenInNewTab "different-domains" u1 u2 = true ↔
      specRegistrableDomain r1.hostname ≠ specRegistrableDomain r2.hostname := by
  simp only [List.mem_cons, List.not_mem_nil, or_false, not_or] at hs1 hs2
  obtain ⟨ha1, hc1, hm1⟩ := hs1
  obtain ⟨ha2, hc2, hm2⟩ := hs2
  unfold shouldOpenInNewTab
  rw [if_neg hne, if_neg (by decide : ¬ ("different-domains" = "all-links"))]
  unfold isDifferentDomain
  rw [h1, h2]
  dsimp only
  rw [if_neg (by simp [ha1, ha2, hc1, hc2, hm1, hm2])]
  rw [getBaseDomain_eq_specRegistrableDomain, getBaseDomain_eq_specRegistrableDomain]
  simp

/-- C1 witness: two URLs with different registrable domains are diverted. -/
theorem claim1_registrable_domains_witness :
    shouldOpenInNewTab "different-domains" "https://example.com/x" "https://other.org/y"
      = true :=
  (claim1_registrable_domains "https://example.com/x" "https://other.org/y"
    ⟨"https:", "example.com"⟩ ⟨"https:", "other.org"⟩
    (by decide) (by decide) (by decide) (by decide) (by decide)).mpr (by decide)

/-- C1 counterexample: the claim asserts the function returns `true` for
`https://a.example.com/x` → `https://b.example.com/y`; it returns `false`,
because both hostnames strip to the registrable domain `example.com`. The
unrestricted iff also fails: two distinct `moz-extension:` URLs with the same
hostname `abc` (hence equal registrable domains) return `true`, because
privileged schemes short-circuit to "different domain". -/
theorem claim1_counterexample :
    (shouldOpenInNewTab "different-domains" "https://a.example.com/x"
        "https://b.example.com/y" = false ∧
      specRegistrableDomain "a.example.com" = specRegistrableDomain "b.example.com") ∧
    (shouldOpenInNewTab "different-domains" "moz-extension://abc/x"
        "moz-extension://abc/y" = true ∧
      parseURL "moz-extension://abc/x" = some ⟨"moz-extension:", "abc"⟩ ∧
      parseURL "moz-extension://abc/y" = some ⟨"moz-extension:", "abc"⟩) := by
  decide

/-- C6: `shouldOpenInNewTab(u, u)` is `false` for every URL and every
`linkBehavior` setting: same-URL navigations are never diverted. -/
theorem claim6_same_url_never_diverts (linkBehavior u : String) :
    shouldOpenInNewTab linkBehavior u u = false := by
  unfold shouldOpenInNewTab
  rw [if_pos rfl]

/-- C7: with `linkBehavior = all-links`, every pair of distinct URLs is
diverted, regardless of domains or parseability. -/
theorem claim7_all_links_diverts (u1 u2 : String) (hne : u1 ≠ u2) :
    shouldOpenInNewTab "all-links" u1 u2 = true := by
  unfold shouldOpenInNewTab
  rw [if_neg hne, if_pos rfl]

/-- C7 witness: an unparseable pair still diverts under `all-links`. -/
theorem claim7_all_links_diverts_witness :
    shouldOpenInNewTab "all-links" "not a url" "also not a url" = true :=
  claim7_all_links_diverts "not a url" "also not a url" (by decide)

/-- C9: when either URL fails to parse, `isDifferentDomain` catches the
failure and returns `true`, so under `different-domains` a (distinct-URL)
navigation is diverted rather than raising an error. -/
theorem claim9_parse_failure_conservative (u1 u2 : String)
    (h : parseURL u1 = none ∨ parseURL u2 = none) :
    isDifferentDomain u1 u2 = true ∧
      (u1 ≠ u2 → shouldOpenInNewTab "different-domains" u1 u2 = true) := by
  have hdiff : isDifferentDomain u1 u2 = true := by
    unfold isDifferentDomain
    rcases h with h | h
    · rw [h]
    · rw [h]
      cases parseURL u1 <;> rfl
  refine ⟨hdiff, fun hne => ?_⟩
  unfold shouldOpenInNewTab
  rw [if_neg hne, if_neg (by decide : ¬ ("different-domains" = "all-links")), hdiff]

/-- C9 witness: the empty string does not parse and is treated as a
different domain. -/
theorem claim9_parse_failure_witness :
    isDifferentDomain "" "https://example.com/" = true ∧
      shouldOpenInNewTab "different-domains" "" "https://example.com/" = true :=
  have h := claim9_parse_failure_conservative "" "https://example.com/" (Or.inl rfl)
  ⟨h.1, h.2 (by decide)⟩

/-- C8: calling `initializeExtension` twice with the host and store unchanged
in between yields the same registry and the same persisted snapshot as one
call (the second call reads back exactly what the first one wrote). -/
theorem claim8_initialize_idempotent (host : Host) (s : ExtState) :
    (initializeExtension host (initializeExtension host s)).pinnedTabs =
      (initializeExtension host s).pinnedTabs ∧
    (initializeExtension host (initializeExtension host s)).store.pinnedUrls =
      (initializeExtension host s).store.pinnedUrls := ⟨rfl, rfl⟩

/-- C10: a tab-update event reporting the tab newly pinned while its URL is
the blank placeholder removes any registry entry for the tab (the handler's
`else` branch deletes) and persists the snapshot afterwards. -/
theorem claim10_pin_blank_removes (s : ExtState) (tabId : Nat) (tab : HostTab)
    (uOpt : Option String) (hblank : tab.url = "about:blank") :
    jsHas (handleTabUpdated tabId ⟨some true, uOpt⟩ tab s).pinnedTabs tabId = false ∧
    (handleTabUpdated tabId ⟨some true, uOpt⟩ tab s).store.pinnedUrls =
      some (handleTabUpdated tabId ⟨some true, uOpt⟩ tab s).pinnedTabs := by
  unfold handleTabUpdated
  cases uOpt with
  | none =>
    dsimp only [savePinnedTabs]
    rw [if_neg (by simp [hblank])]
    exact ⟨by rw [jsHas_jsDelete]; simp, rfl⟩
  | some u =>
    dsimp only [savePinnedTabs]
    rw [if_neg (by simp [hblank]), if_neg (by simp [hblank])]
    exact ⟨by rw [jsHas_jsDelete]; simp, rfl⟩

/-- C10 witness: pinning a blank tab that had a stale registry entry removes
the entry and persists the shrunken snapshot. -/
theorem claim10_pin_blank_removes_witness :
    jsHas (handleTabUpdated 7 ⟨some true, none⟩ ⟨7, true, "about:blank", 0⟩
        ⟨false, "different-domains", [(7, "https://mail.example.com/inbox")], [], [],
          ⟨none, none, none⟩⟩).pinnedTabs 7 = false :=
  (claim10_pin_blank_removes
    ⟨false, "different-domains", [(7, "https://mail.example.com/inbox")], [], [],
      ⟨none, none, none⟩⟩ 7 ⟨7, true, "about:blank", 0⟩ none rfl).1

/-- C2 (amended): `initializeExtension` establishes the registry/host
consistency invariant, and every lifecycle event preserves it — except that a
URL-change event is only covered when its URL is non-blank: a registered
pinned tab navigating to `about:blank` leaves a stale registry entry (see the
counterexample). -/
theorem claim2_registry_host_invariant (host : Host) (s : ExtState) (e : HostEvent)
    (hwf : hostWF host) (hne : eventNonBlankURL e) :
    registryInv host (initializeExtension host s) ∧
    (registryInv host s →
      hostWF (systemStep e host s).1 ∧
      registryInv (systemStep e host s).1 (systemStep e host s).2) :=
  ⟨registryInv_init host s, fun hinv =>
    ⟨by rw [systemStep_fst]; exact hostWF_applyHost host e hwf hne,
      registryInv_step host s e hwf hinv hne⟩⟩

/-- C2 witness: after initialization against a host with one pinned tab, the
registry contains exactly that tab. -/
theorem claim2_registry_host_invariant_witness :
    jsHas (initializeExtension [⟨7, true, "https://mail.example.com/inbox", 0⟩]
      ⟨false, "different-domains", [], [], [], ⟨none, none, none⟩⟩).pinnedTabs 7 = true :=
  ((claim2_registry_host_invariant [⟨7, true, "https://mail.example.com/inbox", 0⟩]
      ⟨false, "different-domains", [], [], [], ⟨none, none, none⟩⟩ (.close 7)
      (by constructor <;> decide) trivial).1 7).mpr
    ⟨⟨7, true, "https://mail.example.com/inbox", 0⟩, by decide, rfl, rfl,
      by decide, by decide⟩

/-- C2 counterexample: the URL-change handler does not preserve the
invariant when a registered pinned tab navigates to `about:blank`: the
invariant holds before the event and fails after it (the stale entry for
tab 7 remains although the host now reports a blank URL). -/
theorem claim2_counterexample :
    registryInv [⟨7, true, "https://mail.example.com/inbox", 0⟩]
      (initializeExtension [⟨7, true, "https://mail.example.com/inbox", 0⟩]
        ⟨false, "different-domains", [], [], [], ⟨none, none, none⟩⟩) ∧
    ¬ registryInv
      (systemStep (.urlChange 7 "about:blank")
        [⟨7, true, "https://mail.example.com/inbox", 0⟩]
        (initializeExtension [⟨7, true, "https://mail.example.com/inbox", 0⟩]
          ⟨false, "different-domains", [], [], [], ⟨none, none, none⟩⟩)).1
      (systemStep (.urlChange 7 "about:blank")
        [⟨7, true, "https://mail.example.com/inbox", 0⟩]
        (initializeExtension [⟨7, true, "https://mail.example.com/inbox", 0⟩]
          ⟨false, "different-domains", [], [], [], ⟨none, none, none⟩⟩)).2 :=
  ⟨registryInv_init _ _, fun hinv => absurd ((hinv 7).mp (by decide)) (by decide)⟩

/-- C4 (code bug): the tab-close handler's `pinnedTabs.has` guard skips all
cleanup for a tab that is no longer registered, so a stale last-attempt
record survives the close. Reached by a concrete execution: tab 7 is pinned
and initialized, a cross-domain navigation is diverted (recording a
last-attempt for 7), the tab is unpinned, then closed; the last-attempt entry
for 7 is still present afterwards, although the handler is documented to
remove all stored state for a closed tab. -/
theorem claim4_close_leaves_stale_attempt :
    jsHas
      ((systemStep (.close 7)
        (systemStep (.pinChange 7 false) [⟨7, true, "https://mail.example.com/inbox", 0⟩]
          (navRun (initializeExtension [⟨7, true, "https://mail.example.com/inbox", 0⟩]
              ⟨false, "different-domains", [], [], [], ⟨none, none, none⟩⟩)
            ⟨⟨7, 0, "https://shop.other.com/item"⟩, .entry⟩
            (List.replicate 5
              ⟨some ⟨7, true, "https://mail.example.com/inbox", 0⟩, 5000, true,
                some ⟨7, true, "https://mail.example.com/inbox", 0⟩⟩)).1).1
        (systemStep (.pinChange 7 false) [⟨7, true, "https://mail.example.com/inbox", 0⟩]
          (navRun (initializeExtension [⟨7, true, "https://mail.example.com/inbox", 0⟩]
              ⟨false, "different-domains", [], [], [], ⟨none, none, none⟩⟩)
            ⟨⟨7, 0, "https://shop.other.com/item"⟩, .entry⟩
            (List.replicate 5
              ⟨some ⟨7, true, "https://mail.example.com/inbox", 0⟩, 5000, true,
                some ⟨7, true, "https://mail.example.com/inbox", 0⟩⟩)).1).2).2).lastNavigationAttempts
      7 = true := by
  decide

/-- C5: a navigation event for a tab with a recorded last attempt, targeting
exactly the recorded original URL within (strictly less than) 1000 ms of the
record, is allowed through silently: the whole interceptor run issues no
`tabs.create` and no `tabs.update` call, and neither the registry nor the
attempt map changes. -/
theorem claim5_echo_suppression (s : ExtState) (d : NavDetails) (la : Attempt)
    (envs : List NavEnv)
    (hla : jsGet s.lastNavigationAttempts d.tabId = some la)
    (hurl : d.url = la.originalUrl)
    (henv : ∀ e ∈ envs, la.timestamp ≤ e.now ∧ e.now - la.timestamp < 1000) :
    (navRun s ⟨d, .entry⟩ envs).2.2 = [] ∧
    (navRun s ⟨d, .entry⟩ envs).1.pinnedTabs = s.pinnedTabs ∧
    (navRun s ⟨d, .entry⟩ envs).1.lastNavigationAttempts = s.lastNavigationAttempts :=
  navRun_echo s d la .entry envs (Or.inl rfl) hla hurl (fun e he => (henv e he).2)

/-- C5 witness: a concrete echo (the corrective redirect back to the pinned
URL, 500 ms after the recorded attempt) produces no host actions. -/
theorem claim5_echo_suppression_witness :
    (navRun
      ⟨false, "different-domains", [(7, "https://mail.example.com/inbox")], [],
        [(7, ⟨1000, "https://mail.example.com/inbox"⟩)], ⟨none, none, none⟩⟩
      ⟨⟨7, 0, "https://mail.example.com/inbox"⟩, .entry⟩
      [⟨some ⟨7, true, "https://shop.other.com/item", 0⟩, 1500, true, none⟩,
        ⟨some ⟨7, true, "https://shop.other.com/item", 0⟩, 1600, true, none⟩]).2.2 = [] :=
  (claim5_echo_suppression
    ⟨false, "different-domains", [(7, "https://mail.example.com/inbox")], [],
      [(7, ⟨1000, "https://mail.example.com/inbox"⟩)], ⟨none, none, none⟩⟩
    ⟨7, 0, "https://mail.example.com/inbox"⟩ ⟨1000, "https://mail.example.com/inbox"⟩
    [⟨some ⟨7, true, "https://shop.other.com/item", 0⟩, 1500, true, none⟩,
      ⟨some ⟨7, true, "https://shop.other.com/item", 0⟩, 1600, true, none⟩]
    rfl rfl (by decide)).1

/-- C3 (amended): in any interleaving of interceptor invocations from a
quiescent start, at most one invocation per tab id is ever past the lock
check at a time; an invocation that reaches the entry check while the lock is
held completes immediately with no state change; and an invocation that
acquired the lock releases it in the same step in which it completes. The
original claim's further assertion — that after ANY completed invocation,
including one that returned early at the lock check, no lock remains held for
that tab — is false: the concurrent holder's lock survives the early return
(see the counterexample). -/
theorem claim3_lock_discipline (c0 c : NavConfig) (h0 : navInit c0)
    (hr : Relation.ReflTransGen NavStepRel c0 c) :
    (∀ t, regionCount c t ≤ 1) ∧
    (∀ inv env, inv.pc = .entry →
      (jsGet c.st.navigationLocks inv.details.tabId).getD false = true →
      navStep c.st inv env = (c.st, .done, [])) ∧
    (∀ inv env, inv.pc.inRegion = true → (navStep c.st inv env).2.1 = .done →
      jsHas (navStep c.st inv env).1.navigationLocks inv.details.tabId = false) := by
  obtain ⟨hwf, hcount⟩ := lockInv_reachable c0 c h0 hr
  refine ⟨?_, ?_, ?_⟩
  · intro t
    rw [hcount t]
    by_cases h : jsHas c.st.navigationLocks t = true <;> simp [h]
  · intro inv env hpc hlock
    exact navStep_entry_locked c.st inv env hpc hlock
  · intro inv env hreg hdone
    have hpc : inv.pc ≠ .done := by
      intro h
      rw [h] at hreg
      exact absurd hreg (by simp [NavPC.inRegion])
    rcases navStep_lock_shape c.st inv env hpc with
      ⟨hp1, _, _⟩ | ⟨hp1, _, _, _⟩ | ⟨hp1, _, _, _⟩ | ⟨_, hp2, _⟩ | ⟨_, _, hl⟩
    · rw [hp1] at hreg
      exact absurd hreg (by simp [NavPC.inRegion])
    · rw [hp1] at hreg
      exact absurd hreg (by simp [NavPC.inRegion])
    · rw [hp1] at hreg
      exact absurd hreg (by simp [NavPC.inRegion])
    · rw [hdone] at hp2
      exact absurd hp2 (by simp [NavPC.inRegion])
    · rw [hl, jsHas_jsDelete]
      simp

/-- C3 witness: a quiescent two-invocation configuration for tab 7 satisfies
the mutual-exclusion bound. -/
theorem claim3_lock_discipline_witness :
    regionCount
      ⟨⟨false, "different-domains", [(7, "https://mail.example.com/inbox")], [], [],
          ⟨none, none, none⟩⟩,
        [⟨⟨7, 0, "https://shop.other.com/item"⟩, .entry⟩,
          ⟨⟨7, 0, "https://shop.other.com/item"⟩, .entry⟩]⟩ 7 ≤ 1 :=
  (claim3_lock_discipline _ _ ⟨rfl, by decide⟩ Relation.ReflTransGen.refl).1 7

/-- C3 counterexample: invocation A (index 0) acquires the lock for tab 7 and
suspends at `tabs.get`; invocation B (index 1) then hits the lock check,
completes (early return, no state change) — and the lock for tab 7 is still
held, refuting "after any interceptor invocation completes — whether it
returned early, succeeded, or threw — no navigation lock remains held for
that tab id". -/
theorem claim3_counterexample :
    let s1 : ExtState :=
      ⟨false, "different-domains", [(7, "https://mail.example.com/inbox")], [], [],
        ⟨none, none, none⟩⟩
    let dA : NavDetails := ⟨7, 0, "https://shop.other.com/item"⟩
    let c0 : NavConfig := ⟨s1, [⟨dA, .entry⟩, ⟨dA, .entry⟩]⟩
    let e : NavEnv := ⟨none, 0, true, none⟩
    let c1 := stepAt c0 0 e
    let c2 := stepAt c1 1 e
    (c2.invs[1]?.map NavInv.pc) = some .done ∧ c2.st = c1.st ∧
      jsHas c2.st.navigationLocks 7 = true := by
  decide

end PinnedTabs
